import Mathlib

/-!
Shallow embedding of the cached file data plane of `telegram-fuse`
(`src/vfs/file.rs` and `src/vfs/error.rs`).

Modelling conventions:
* Bytes are `Nat`s, the backing temp file is a `List Nat` whose length is the
  file's on-disk length.
* `Instant::now()` (used only to stamp `Dirty` epochs, field `lock_mtime`) is
  modelled by a per-entry counter `clock` that is bumped exactly where the code
  calls `Instant::now()` for a stamp; successive calls yield strictly larger
  values.
* `watch` channels: the `available_size` channel is modelled by the last value
  published (`available`); the `done` channel of a `Dirty` status is modelled by
  the `Bool` it currently holds (`doneVal`).  In the sequential scenario models
  the sender has always finished before a receiver waits, so `changed()`
  returns immediately and `borrow()` yields `doneVal`.
* Operations that suspend on a channel (read/write during `Downloading`,
  flush's wait for a download) return an explicit `wait` outcome; the code that
  runs after re-acquiring the lock is modelled by a separate resume function
  applied to the state observed at wake-up time.
* `unreachable!()` and failed `assert!` are modelled by a distinguished
  `stuck` outcome; no claim exercises them.
-/

namespace TelegramFuse

/-- Errors of `src/vfs/error.rs` (`enum Error`).  Payload-carrying variants are
collapsed to their tag, which is all `into_c_err` inspects. -/
inductive Error where
  | notFound
  | notADirectory
  | isADirectory
  | directoryNotEmpty
  | fileExists
  | invalidated
  | sqlErr
  | grammersErr
  | downloadFailed
  | mediaInvalid
  | ioErr
  | invalidFileType
  deriving DecidableEq, Repr

/-- `Error::into_c_err` from `src/vfs/error.rs`, with the numeric Linux errno
values (`EPERM = 1`, `ENOENT = 2`, `EIO = 5`, `EEXIST = 17`, `ENOTDIR = 20`,
`EISDIR = 21`, `ENOTEMPTY = 39`). -/
def Error.into_c_err : Error → Nat
  | .notFound => 2
  | .notADirectory => 20
  | .isADirectory => 21
  | .directoryNotEmpty => 39
  | .fileExists => 17
  | .invalidated => 1
  | .sqlErr => 5
  | .grammersErr => 5
  | .downloadFailed => 5
  | .mediaInvalid => 5
  | .ioErr => 5
  | .invalidFileType => 1

/-- `enum FileCacheStatus` from `src/vfs/file.rs`.  `dirty` carries the
`lock_mtime` stamp (`epoch`) and the current value of its `done` watch
channel. -/
inductive FileCacheStatus where
  | downloading (truncate : Option Nat)
  | downloadFailed
  | ready
  | dirty (epoch : Nat) (doneVal : Bool)
  | invalidated
  deriving DecidableEq, Repr

/-- `struct FileCacheState` plus the modelled clock.  `available` is the last
value published on the `available_size` watch channel (initially `0`). -/
structure EntryState where
  file : List Nat
  file_size : Nat
  available : Nat
  status : FileCacheStatus
  clock : Nat
  deriving DecidableEq, Repr

/-- Write `data` into `file` at absolute offset `offset`, zero-filling any gap
(seek past EOF followed by `write_all`). -/
def writeAt (file : List Nat) (offset : Nat) (data : List Nat) : List Nat :=
  (file.take offset ++ List.replicate (offset - file.length) 0)
    ++ data ++ file.drop (offset + data.length)

/-- `File::set_len`: shrink by dropping, grow by zero-filling. -/
def setLen (file : List Nat) (n : Nat) : List Nat :=
  file.take n ++ List.replicate (n - file.length) 0

instance {ε α : Type} [DecidableEq ε] [DecidableEq α] : DecidableEq (Except ε α) := fun x y =>
  match x, y with
  | .ok a, .ok b =>
      if h : a = b then .isTrue (by simp [h]) else .isFalse (by simp [h])
  | .ok _, .error _ => .isFalse (by simp)
  | .error _, .ok _ => .isFalse (by simp)
  | .error e, .error f =>
      if h : e = f then .isTrue (by simp [h]) else .isFalse (by simp [h])

/-- Outcome of `FileCache::read`: a returned `Result<Bytes>`, or suspension on
the `available_size` watch channel. -/
inductive ReadOut where
  | out (r : Except Error (List Nat))
  | wait
  deriving DecidableEq, Repr

/-- `FileCache::read` (src/vfs/file.rs:67-104) up to its first suspension
point.  The empty-result shortcut precedes the status match; a `Downloading`
entry serves immediately only when the unclamped `offset + size` is at most the
published available value, and otherwise suspends. -/
def readModel (st : EntryState) (offset : Nat) (size : Nat) : ReadOut :=
  if st.file_size ≤ offset ∨ size = 0 then
    .out (.ok [])
  else
    let e := offset + size
    let e' := min e st.file_size
    let served : ReadOut := .out (.ok ((st.file.drop offset).take (e' - offset)))
    match st.status with
    | .ready => served
    | .dirty _ _ => served
    | .invalidated => .out (.error .invalidated)
    | .downloadFailed => .out (.error .downloadFailed)
    | .downloading _ => if e ≤ st.available then served else .wait

/-- Outcome of `FileCache::write`: a returned `Result<(u64, u32)>` together
with the mutated entry, or suspension until the download finishes. -/
inductive WriteOut where
  | out (r : Except Error (EntryState × Nat × Nat))
  | wait
  deriving DecidableEq, Repr

/-- The state mutation of `FileCache::write` (src/vfs/file.rs:122-155) once the
entry is `Ready` or `Dirty`: a `Ready` entry is stamped
`Dirty { lock_mtime: Instant::now(), done_rx }` and the paired `done_tx`
immediately sends `true`; then the data is written and `file_size` updated. -/
def writeUpdate (st : EntryState) (offset : Nat) (data : List Nat) : EntryState :=
  let st1 :=
    match st.status with
    | .ready => { st with status := .dirty (st.clock + 1) true, clock := st.clock + 1 }
    | _ => st
  { st1 with
      file := writeAt st1.file offset data
      file_size := max st1.file_size (offset + data.length) }

/-- `FileCache::write` (src/vfs/file.rs:106-156) up to its suspension point.
`mtime` stands for the wall-clock seconds the code reads from
`SystemTime::now()`. -/
def writeModel (st : EntryState) (offset : Nat) (data : List Nat) (mtime : Nat) : WriteOut :=
  match st.status with
  | .invalidated => .out (.error .invalidated)
  | .downloadFailed => .out (.error .downloadFailed)
  | .downloading _ => .wait
  | .ready =>
      let st' := writeUpdate st offset data
      .out (.ok (st', st'.file_size, mtime))
  | .dirty _ _ =>
      let st' := writeUpdate st offset data
      .out (.ok (st', st'.file_size, mtime))

/-- Outcome of the entry-present part of `DiskCache::truncate_file`:
either the function returned with the mutated entry, or the
`DownloadFailed`/`Invalidated` arm fell through to the `alloc` path. -/
inductive TruncOut where
  | done (st : EntryState)
  | fallthrough
  deriving DecidableEq, Repr

/-- `DiskCache::truncate_file` (src/vfs/file.rs:492-525), the part acting on a
present entry.  Note that in the `Ready | Dirty` arm the `file.upload(...)`
call is commented out in the source, so the status is left unchanged. -/
def truncateEntry (st : EntryState) (new_size : Nat) : TruncOut :=
  match st.status with
  | .downloading t =>
      let download_size := t.getD st.file_size
      .done { st with
                status := .downloading (some (min download_size new_size))
                file_size := new_size
                file := setLen st.file new_size }
  | .ready =>
      .done { st with file_size := new_size, file := setLen st.file new_size }
  | .dirty _ _ =>
      .done { st with file_size := new_size, file := setLen st.file new_size }
  | .downloadFailed => .fallthrough
  | .invalidated => .fallthrough

/-- The duplicate-admission invalidation in `DiskCache::insert_empty`
(src/vfs/file.rs:627-629): the displaced old entry's status is set to
`Invalidated` under its lock, whatever it was. -/
def invalidateOld (st : EntryState) : EntryState :=
  { st with status := .invalidated }

/-- Whether the remote calls made by an upload task succeed:
`upload_stream` and `edit_message` respectively. -/
structure RemoteOracle where
  uploadOk : Bool
  editOk : Bool
  deriving DecidableEq, Repr

/-- One `edit_message(chat, rid, InputMessage::text(name).file(uploaded))`
call issued to the remote. -/
structure Edit where
  rid : Int
  text : String
  payload : List Nat
  deriving DecidableEq, Repr

/-- The status stamp performed by `FileCache::upload` before spawning the
task (src/vfs/file.rs:302-307): unconditionally set
`Dirty { lock_mtime: Instant::now(), done_rx }` with a fresh channel holding
`false`.  Returns the new state and the captured `init_lock_mtime`. -/
def uploadLaunchStamp (st : EntryState) : EntryState × Nat :=
  ({ st with status := .dirty (st.clock + 1) false, clock := st.clock + 1 },
   st.clock + 1)

/-- `is_up_to_date` (src/vfs/file.rs:314): status is `Dirty` with exactly the
captured `init_lock_mtime`. -/
def isUpToDate (s : FileCacheStatus) (captured : Nat) : Bool :=
  match s with
  | .dirty e _ => e = captured
  | _ => false

/-- The finalisation match of the upload task after a successful
`edit_message` (src/vfs/file.rs:408-430): commit `Dirty → Ready` only when the
stamp still equals the captured one; `Invalidated` and a racing stamp leave the
status unchanged.  (The `Downloading` arm is `unreachable!()` in the source;
callers never pass such a state.) -/
def uploadFinishStep (st : EntryState) (captured : Nat) : EntryState :=
  match st.status with
  | .dirty e _ => if e = captured then { st with status := .ready } else st
  | _ => st

/-- The `Uploaded` payload the task obtains, or `none` on the early-return
paths: a single zero byte for an empty file (the remote refuses empty
payloads), the first `file_size` bytes of the backing file otherwise; `none`
when `read_exact` or `upload_stream` fails. -/
def uploadPayload (ro : RemoteOracle) (st : EntryState) : Option (List Nat) :=
  if st.file_size = 0 then
    if ro.uploadOk then some [0] else none
  else if st.file.length < st.file_size then none
  else if ro.uploadOk then some (st.file.take st.file_size) else none

/-- The body of the task spawned by `FileCache::upload`
(src/vfs/file.rs:313-434), run to completion with no interference from other
tasks (both lock acquisitions observe the same state).  Returns the resulting
entry state and the list of `edit_message` calls issued. -/
def uploadTaskRun (ro : RemoteOracle) (rid : Int) (name : String) (captured : Nat)
    (st : EntryState) : EntryState × List Edit :=
  if ¬ isUpToDate st.status captured then (st, [])
  -- second lock: the interference-free model observes the same state
  else if ¬ isUpToDate st.status captured then (st, [])
  else
    match uploadPayload ro st with
    | none => (st, [])
    | some payload =>
        if ro.editOk then (uploadFinishStep st captured, [⟨rid, name, payload⟩])
        else (st, [⟨rid, name, payload⟩])

/-- `FileCache::upload` followed by the spawned task run to completion with no
interference: the stamp, then the task body. -/
def flushCommit (ro : RemoteOracle) (rid : Int) (name : String)
    (st : EntryState) : EntryState × List Edit :=
  let stamped := uploadLaunchStamp st
  uploadTaskRun ro rid name stamped.2 stamped.1

/-- Result of one run of the blocking loop of `DiskCache::flush`
(src/vfs/file.rs:565-583) with the given fuel: a returned `Result<()>`,
fuel exhaustion (the loop did not terminate within `fuel` iterations), or the
`unreachable!()` arm. -/
inductive LoopRes where
  | ret (r : Except Error Unit)
  | fuelOut
  | stuck
  deriving DecidableEq, Repr

/-- The `block` loop of `DiskCache::flush`: match on the status, wait for the
`done` channel of a `Dirty` entry to close (the upload task has finished in
this model, so the wait returns at once), return `Ok` if it holds `true`,
otherwise re-lock and loop.  With no interference the state is unchanged
between iterations. -/
def flushBlockLoop : Nat → EntryState → LoopRes
  | 0, _ => .fuelOut
  | fuel + 1, st =>
      match st.status with
      | .downloading _ => .stuck
      | .downloadFailed => .ret (.error .downloadFailed)
      | .invalidated => .ret (.ok ())
      | .ready => .ret (.ok ())
      | .dirty _ doneVal =>
          if doneVal then .ret (.ok ()) else flushBlockLoop fuel st

/-- Outcome of `DiskCache::flush` on a present entry. -/
inductive FlushOut where
  | ret (r : Except Error Unit) (st : EntryState) (edits : List Edit)
  | waitDownload
  | fuelOut (st : EntryState) (edits : List Edit)
  | stuck
  deriving DecidableEq, Repr

/-- The tail of `DiskCache::flush` after the top status match
(src/vfs/file.rs:563-585), i.e. also the code a flush that waited for a
download runs on the state it observes after re-locking: call
`file.upload(...)` unconditionally, then the blocking loop if `block`. -/
def flushResume (ro : RemoteOracle) (rid : Int) (name : String) (block : Bool)
    (fuel : Nat) (st : EntryState) : FlushOut :=
  let committed := flushCommit ro rid name st
  if block then
    match flushBlockLoop fuel committed.1 with
    | .ret r => .ret r committed.1 committed.2
    | .fuelOut => .fuelOut committed.1 committed.2
    | .stuck => .stuck
  else
    .ret (.ok ()) committed.1 committed.2

/-- `DiskCache::flush` (src/vfs/file.rs:545-589) on a present entry, up to its
suspension point: the top status match, then `flushResume`.  A `Downloading`
entry makes the caller wait for the download's watch channel to close and then
run `flushResume` on whatever state it observes — without re-checking the
status first. -/
def flushEntryModel (ro : RemoteOracle) (rid : Int) (name : String) (block : Bool)
    (fuel : Nat) (st : EntryState) : FlushOut :=
  match st.status with
  | .downloadFailed => .ret (.error .downloadFailed) st []
  | .ready => .ret (.ok ()) st []
  | .invalidated => .ret (.ok ()) st []
  | .downloading _ => .waitDownload
  | .dirty _ _ => flushResume ro rid name block fuel st

/-- Outcome of one iteration of the downloader loop: the mutated entry plus
the new local `pos`, a clean abort (state untouched), or a panicking arm
(`unreachable!()` / failed `assert!`). -/
inductive DlOut where
  | stepped (st : EntryState) (pos : Nat)
  | aborted
  | stuck
  deriving DecidableEq, Repr

/-- The completion helper `complete` of `FileCache::download`
(src/vfs/file.rs:170-199): a pending truncate launches an upload (the stamp),
otherwise the entry becomes `Ready`. -/
def downloadComplete (st : EntryState) : EntryState :=
  match st.status with
  | .downloading (some _) => (uploadLaunchStamp st).1
  | .downloading none => { st with status := .ready }
  | _ => st

/-- The backing-file content after the download loop writes the truncated
chunk `chunk.take (download_size - pos)` at `pos` (skipping the write when the
truncated chunk is empty). -/
def dlWritten (st : EntryState) (pos : Nat) (chunk : List Nat)
    (download_size : Nat) : List Nat :=
  if (chunk.take (download_size - pos)).isEmpty then st.file
  else writeAt st.file pos (chunk.take (download_size - pos))

/-- The chunk-processing body of the download loop, given the effective
`download_size` selected by the status match: truncate the chunk to what is
still owed, write it at `pos`, publish the new position (or, on completion,
the file size), and finalise when done. -/
def downloadChunkBody (st : EntryState) (pos : Nat) (chunk : List Nat)
    (download_size : Nat) : DlOut :=
  if st.file_size < download_size then .stuck  -- assert!(download_size <= file_size)
  else if pos + (chunk.take (download_size - pos)).length < download_size then
    .stepped
      { st with
          file := dlWritten st pos chunk download_size
          available := pos + (chunk.take (download_size - pos)).length }
      (pos + (chunk.take (download_size - pos)).length)
  else
    .stepped
      (downloadComplete
        { st with
            file := dlWritten st pos chunk download_size
            available := st.file_size })
      (pos + (chunk.take (download_size - pos)).length)

/-- One iteration of the download loop of `FileCache::download`
(src/vfs/file.rs:202-269) for a successfully fetched chunk.  `pos` is the
task-local write position; `externalHolders` models
`Arc::strong_count(&this) != 1`. -/
def downloadChunkStep (st : EntryState) (pos : Nat) (chunk : List Nat)
    (externalHolders : Bool) : DlOut :=
  match st.status with
  | .downloading (some download_size) => downloadChunkBody st pos chunk download_size
  | .downloading none =>
      if externalHolders then downloadChunkBody st pos chunk st.file_size else .aborted
  | .invalidated => .aborted
  | _ => .stuck

/-- The tail of `FileCache::download` after the chunk stream ends
(src/vfs/file.rs:271-293): short delivery fails the entry, otherwise the
completion helper runs.  Nothing is published on the channel here. -/
def downloadEndStep (st : EntryState) (pos : Nat) : DlOut :=
  match st.status with
  | .downloading t =>
      if pos < t.getD st.file_size then
        .stepped { st with status := .downloadFailed } pos
      else
        .stepped (downloadComplete st) pos
  | .invalidated => .aborted
  | _ => .stuck

/-- Labels for the status-mutating transitions of one cache entry. -/
inductive Label where
  | writeOp (offset : Nat) (data : List Nat)
  | truncateOp (new_size : Nat)
  | uploadLaunch
  | uploadFinish (captured : Nat)
  | dlChunk (pos : Nat) (chunk : List Nat) (externalHolders : Bool)
  | dlEnd (pos : Nat)
  | dlFail
  | invalidate
  deriving DecidableEq, Repr

/-- The transition relation of one cache entry: every state mutation the
source performs on `FileCacheState`, each derived from the corresponding
function above.  Side conditions restrict each step to the statuses its call
sites can actually present (see the comments). -/
inductive Step : EntryState → Label → EntryState → Prop where
  | writeOp (st : EntryState) (offset : Nat) (data : List Nat)
      (h : st.status = .ready ∨ ∃ e v, st.status = .dirty e v) :
      Step st (.writeOp offset data) (writeUpdate st offset data)
  | truncateOp (st st' : EntryState) (new_size : Nat)
      (h : truncateEntry st new_size = .done st') :
      Step st (.truncateOp new_size) st'
  | uploadLaunch (st : EntryState)
      -- call sites: flush on a `Dirty` entry, flush resuming after a download
      -- wait (any settled status), and download completion with a pending
      -- truncate; never `Downloading { truncate: None }`.
      (h : st.status ≠ .downloading none) :
      Step st .uploadLaunch (uploadLaunchStamp st).1
  | uploadFinish (st : EntryState) (captured : Nat)
      -- the `Downloading` arm of the finalisation match is `unreachable!()`
      (h : ∀ t, st.status ≠ .downloading t) :
      Step st (.uploadFinish captured) (uploadFinishStep st captured)
  | dlChunk (st st' : EntryState) (pos pos' : Nat) (chunk : List Nat)
      (externalHolders : Bool)
      (h : downloadChunkStep st pos chunk externalHolders = .stepped st' pos') :
      Step st (.dlChunk pos chunk externalHolders) st'
  | dlEnd (st st' : EntryState) (pos pos' : Nat)
      (h : downloadEndStep st pos = .stepped st' pos') :
      Step st (.dlEnd pos) st'
  | dlFail (st : EntryState)
      -- src/vfs/file.rs:207-211: a chunk error sets `DownloadFailed`
      -- unconditionally; the downloader only runs while the status is
      -- `Downloading` or was concurrently `Invalidated`.
      (h : (∃ t, st.status = .downloading t) ∨ st.status = .invalidated) :
      Step st .dlFail { st with status := .downloadFailed }
  | invalidate (st : EntryState) :
      Step st .invalidate (invalidateOld st)

/-- The per-entry epoch bound: a `Dirty` stamp never exceeds the clock. -/
def epochOk (st : EntryState) : Bool :=
  match st.status with
  | .dirty e _ => e ≤ st.clock
  | _ => true

lemma epochOk_of_status_eq {st st' : EntryState} (hs : st'.status = st.status)
    (hc : st'.clock = st.clock) (h : epochOk st = true) : epochOk st' = true := by
  unfold epochOk at h ⊢
  rw [hs, hc]
  exact h

lemma downloadComplete_clock_epoch (st : EntryState) :
    st.clock ≤ (downloadComplete st).clock ∧ (downloadComplete st).clock ≤ st.clock + 1
      ∧ (epochOk st = true → epochOk (downloadComplete st) = true)
      ∧ (downloadComplete st).available = st.available
      ∧ (downloadComplete st).file_size = st.file_size := by
  unfold downloadComplete uploadLaunchStamp epochOk
  cases h : st.status with
  | downloading t => cases t <;> simp
  | downloadFailed => simp [h]
  | ready => simp [h]
  | dirty e v => simp [h]
  | invalidated => simp [h]

lemma downloadChunkBody_stepped {st st' : EntryState} {pos pos' ds : Nat}
    {chunk : List Nat} (h : downloadChunkBody st pos chunk ds = .stepped st' pos') :
    st.clock ≤ st'.clock ∧ st'.clock ≤ st.clock + 1
      ∧ (epochOk st = true → epochOk st' = true)
      ∧ st'.file_size = st.file_size
      ∧ (ds ≤ st.file_size → st'.available ≤ st'.file_size) := by
  unfold downloadChunkBody at h
  split at h
  · exact absurd h (by simp)
  · split at h
    · cases h
      rename_i hfs hlt
      refine ⟨Nat.le_refl _, Nat.le_succ _, ?_, rfl, ?_⟩
      · intro hok
        exact epochOk_of_status_eq rfl rfl hok
      · intro _
        exact Nat.le_of_lt (Nat.lt_of_lt_of_le hlt (Nat.le_of_not_lt hfs))
    · cases h
      rename_i hfs hge
      have hc := downloadComplete_clock_epoch
        { st with file := dlWritten st pos chunk ds, available := st.file_size }
      refine ⟨hc.1, hc.2.1, fun hok => ?_, hc.2.2.2.2, fun _ => ?_⟩
      · refine hc.2.2.1 ?_
        exact epochOk_of_status_eq rfl rfl hok
      · rw [hc.2.2.2.1, hc.2.2.2.2]

lemma truncateEntry_done {st st' : EntryState} {n : Nat}
    (h : truncateEntry st n = .done st') :
    st'.clock = st.clock ∧ (epochOk st = true → epochOk st' = true)
      ∧ (st.status = .ready → st'.status = .ready) := by
  unfold truncateEntry at h
  cases hst : st.status with
  | downloading t =>
      rw [hst] at h
      simp at h
      cases h
      exact ⟨rfl, fun _ => by unfold epochOk; simp, by simp [hst]⟩
  | downloadFailed => rw [hst] at h; simp at h
  | ready =>
      rw [hst] at h
      simp at h
      cases h
      exact ⟨rfl, fun _ => by unfold epochOk; simp [hst], by simp [hst]⟩
  | dirty e v =>
      rw [hst] at h
      simp at h
      cases h
      refine ⟨rfl, fun hok => ?_, by simp [hst]⟩
      unfold epochOk at hok ⊢
      rw [hst] at hok
      simpa using hok
  | invalidated => rw [hst] at h; simp at h

lemma writeUpdate_clock_epoch (st : EntryState) (offset : Nat) (data : List Nat) :
    st.clock ≤ (writeUpdate st offset data).clock
      ∧ (epochOk st = true → epochOk (writeUpdate st offset data) = true) := by
  unfold writeUpdate epochOk
  cases hst : st.status <;> simp [hst]

lemma uploadFinishStep_clock_epoch (st : EntryState) (captured : Nat) :
    (uploadFinishStep st captured).clock = st.clock
      ∧ (epochOk st = true → epochOk (uploadFinishStep st captured) = true) := by
  unfold uploadFinishStep epochOk
  cases hst : st.status <;> simp [hst]
  split <;> simp [hst]

lemma Step.clock_epoch {s : EntryState} {l : Label} {s' : EntryState}
    (h : Step s l s') :
    s.clock ≤ s'.clock ∧ (epochOk s = true → epochOk s' = true) := by
  cases h with
  | writeOp offset data hs =>
      exact writeUpdate_clock_epoch s offset data
  | truncateOp st' new_size h =>
      have := truncateEntry_done h
      exact ⟨Nat.le_of_eq this.1.symm, this.2.1⟩
  | uploadLaunch hs =>
      unfold uploadLaunchStamp epochOk
      simp
  | uploadFinish captured hs =>
      have := uploadFinishStep_clock_epoch s captured
      exact ⟨Nat.le_of_eq this.1.symm, this.2⟩
  | dlChunk st' pos pos' chunk ext h =>
      unfold downloadChunkStep at h
      split at h
      · have := downloadChunkBody_stepped h
        exact ⟨this.1, this.2.2.1⟩
      · split at h
        · have := downloadChunkBody_stepped h
          exact ⟨this.1, this.2.2.1⟩
        · exact absurd h (by simp)
      · exact absurd h (by simp)
      · exact absurd h (by simp)
  | dlEnd st' pos pos' h =>
      unfold downloadEndStep at h
      split at h
      · split at h
        · cases h
          refine ⟨Nat.le_refl _, fun _ => ?_⟩
          unfold epochOk
          simp
        · cases h
          have hc := downloadComplete_clock_epoch s
          exact ⟨hc.1, hc.2.2.1⟩
      · exact absurd h (by simp)
      · exact absurd h (by simp)
  | dlFail hs =>
      refine ⟨Nat.le_refl _, fun _ => ?_⟩
      unfold epochOk
      simp
  | invalidate =>
      refine ⟨Nat.le_refl _, fun _ => ?_⟩
      unfold epochOk invalidateOld
      simp

/-- Any `Ready → Dirty` transition stamps an epoch strictly above the old
clock (it is `Instant::now()` taken after every previously recorded stamp). -/
lemma Step.fresh_stamp {s : EntryState} {l : Label} {s' : EntryState}
    {e : Nat} {v : Bool} (h : Step s l s') (hs : s.status = .ready)
    (hs' : s'.status = .dirty e v) : s.clock < e := by
  cases h with
  | writeOp offset data h0 =>
      unfold writeUpdate at hs'
      rw [hs] at hs'
      simp at hs'
      omega
  | truncateOp st' new_size h0 =>
      have := (truncateEntry_done h0).2.2 hs
      rw [this] at hs'
      exact absurd hs' (by simp)
  | uploadLaunch h0 =>
      unfold uploadLaunchStamp at hs'
      simp at hs'
      omega
  | uploadFinish captured h0 =>
      unfold uploadFinishStep at hs'
      rw [hs] at hs'
      simp [hs] at hs'
  | dlChunk st' pos pos' chunk ext h0 =>
      unfold downloadChunkStep at h0
      rw [hs] at h0
      simp at h0
  | dlEnd st' pos pos' h0 =>
      unfold downloadEndStep at h0
      rw [hs] at h0
      simp at h0
  | dlFail h0 =>
      exact absurd hs' (by simp)
  | invalidate =>
      exact absurd hs' (by simp [invalidateOld])

lemma epochOk_bound {s : EntryState} {e : Nat} {v : Bool}
    (hok : epochOk s = true) (hs : s.status = .dirty e v) : e ≤ s.clock := by
  unfold epochOk at hok
  rw [hs] at hok
  simpa using hok

/-- Clock monotonicity and epoch-bound preservation along a trace. -/
lemma trace_clock_epoch (n : Nat) (f : Nat → EntryState) (L : Nat → Label)
    (hstep : ∀ k, k < n → Step (f k) (L k) (f (k + 1)))
    (hinv : epochOk (f 0) = true) :
    ∀ j, j ≤ n → (epochOk (f j) = true ∧ ∀ i, i ≤ j → (f i).clock ≤ (f j).clock) := by
  intro j
  induction j with
  | zero =>
      intro _
      exact ⟨hinv, fun i hi => by cases Nat.le_zero.mp hi; exact Nat.le_refl _⟩
  | succ m ih =>
      intro hm
      have hstepm := hstep m (Nat.lt_of_lt_of_le (Nat.lt_succ_self m) hm)
      have hprev := ih (Nat.le_of_lt (Nat.lt_of_lt_of_le (Nat.lt_succ_self m) hm))
      have hce := Step.clock_epoch hstepm
      refine ⟨hce.2 hprev.1, fun i hi => ?_⟩
      rcases Nat.lt_or_ge i (m + 1) with hlt | hge
      · exact Nat.le_trans (hprev.2 i (Nat.lt_succ_iff.mp hlt)) hce.1
      · cases Nat.le_antisymm hi hge
        exact Nat.le_refl _

/-- The bytes of `"hello"`. -/
def helloBytes : List Nat := [104, 101, 108, 108, 111]

/-- The entry `DiskCache::insert_empty` creates (src/vfs/file.rs:623): empty
temp file, size `0`, status `Ready`, watch channel at `0`. -/
def createdEmpty : EntryState := ⟨[], 0, 0, .ready, 0⟩

/-- The entry after writing `"hello"` at offset 0 into `createdEmpty`. -/
def c1Dirty : EntryState := ⟨helloBytes, 5, 0, .dirty 1 true, 1⟩

/-- The entry after the blocking flush of `c1Dirty` commits. -/
def c1Flushed : EntryState := ⟨helloBytes, 5, 0, .ready, 2⟩

/-- C1: starting from a freshly created empty entry (`Ready`, size 0), a write
of the five bytes `"hello"` at offset 0 returns new size 5 and leaves the
entry `Dirty`; a subsequent blocking flush issues exactly one `edit_message`
for that rid carrying exactly those five bytes with the file name as message
text, after which the entry's status is `Ready`. -/
theorem C1_create_write_fsync :
    writeModel createdEmpty 0 helloBytes 77 = .out (.ok (c1Dirty, 5, 77))
      ∧ c1Dirty.status = .dirty 1 true
      ∧ flushEntryModel ⟨true, true⟩ 1 "a.txt" true 2 c1Dirty
          = .ret (.ok ()) c1Flushed [⟨1, "a.txt", helloBytes⟩]
      ∧ c1Flushed.status = .ready := by
  refine ⟨?_, rfl, ?_, rfl⟩ <;> rfl

/-- An entry that has been invalidated by a duplicate admission. -/
def invEntry : EntryState := ⟨[], 0, 0, .invalidated, 0⟩

/-- The entry `invEntry` is turned into by the resumed flush. -/
def c3Resurrected : EntryState := ⟨[], 0, 0, .ready, 1⟩

/-- C3 (code bug): a flush that found the entry `Downloading`, waited for the
download's watch channel to close, and re-locked does not re-check the status
(src/vfs/file.rs:554-563); it calls `upload`, which stamps `Dirty` over
whatever is there.  On an entry that was meanwhile `Invalidated`, the stamp
plus a successful upload task drives `Invalidated → Dirty → Ready` and issues
an `edit_message` — `Invalidated` is not terminal. -/
theorem C3_flush_leaves_invalidated :
    invEntry.status = .invalidated
      ∧ flushResume ⟨true, true⟩ 1 "a.txt" true 2 invEntry
          = .ret (.ok ()) c3Resurrected [⟨1, "a.txt", [0]⟩]
      ∧ c3Resurrected.status = .ready
      ∧ c3Resurrected.status ≠ .invalidated := by
  refine ⟨rfl, ?_, rfl, by decide⟩
  rfl

/-- A `Ready` entry holding ten `7` bytes. -/
def c4Ready : EntryState := ⟨List.replicate 10 7, 10, 0, .ready, 0⟩

/-- `c4Ready` after `truncate_file(rid, 3)`. -/
def c4Truncated : EntryState := ⟨List.replicate 3 7, 3, 0, .ready, 0⟩

/-- C4 (code bug): `DiskCache::truncate_file` on a `Ready` entry resizes the
backing file and `logical_size` but leaves the status `Ready` — the
`file.upload(...)` call in that arm is commented out (src/vfs/file.rs:520) —
so the subsequent flush returns `Ok` without issuing any `edit_message` and
the truncation is never committed. -/
theorem C4_truncate_ready_stays_ready :
    truncateEntry c4Ready 3 = .done c4Truncated
      ∧ c4Truncated.status = .ready
      ∧ (∀ e v, c4Truncated.status ≠ .dirty e v)
      ∧ flushEntryModel ⟨true, true⟩ 1 "a.txt" true 2 c4Truncated
          = .ret (.ok ()) c4Truncated [] := by
  refine ⟨rfl, rfl, ?_, rfl⟩
  intro e v h
  exact FileCacheStatus.noConfusion h

/-- A `Downloading` entry of logical size 10 whose downloader has published
4 available bytes. -/
def c5Downloading : EntryState := ⟨List.replicate 10 0, 10, 4, .downloading none, 0⟩

/-- `c5Downloading` after `truncate_file(rid, 1)`. -/
def c5Truncated : EntryState := ⟨[0], 1, 4, .downloading (some 1), 0⟩

/-- C5 counterexample: a truncate that shrinks `logical_size` below the
already-published progress leaves the published available value (4) strictly
above `logical_size` (1), so `available_prefix ≤ logical_size` does not hold
at every instant. -/
theorem C5_counterexample :
    truncateEntry c5Downloading 1 = .done c5Truncated
      ∧ ¬ (c5Truncated.available ≤ c5Truncated.file_size) := by
  exact ⟨rfl, by decide⟩

/-- The downloader cap invariant: a pending `truncate` on a `Downloading`
entry never exceeds `logical_size` (`assert!(download_size <= file_size)`,
src/vfs/file.rs:233). -/
def capBound (st : EntryState) : Bool :=
  match st.status with
  | .downloading (some c) => c ≤ st.file_size
  | _ => true

/-- C5 amended: every value the downloader publishes on the watch channel is,
at the moment of publication, at most `logical_size` (under the cap
invariant); only a truncate shrinking `logical_size` afterwards can leave the
stale published value above it. -/
theorem C5_amended_published_bound (st st' : EntryState) (pos pos' : Nat)
    (chunk : List Nat) (externalHolders : Bool)
    (hcap : capBound st = true)
    (h : downloadChunkStep st pos chunk externalHolders = .stepped st' pos') :
    st'.available ≤ st'.file_size := by
  unfold downloadChunkStep at h
  split at h
  · rename_i hst
    have hds : capBound st = true := hcap
    unfold capBound at hds
    rw [hst] at hds
    exact (downloadChunkBody_stepped h).2.2.2.2 (by simpa using hds)
  · split at h
    · exact (downloadChunkBody_stepped h).2.2.2.2 (Nat.le_refl _)
    · exact absurd h (by simp)
  · exact absurd h (by simp)
  · exact absurd h (by simp)

/-- A `Downloading` entry used to witness the publication bound. -/
def c5Witness : EntryState := ⟨List.replicate 4 0, 4, 0, .downloading none, 0⟩

theorem C5_amended_published_bound_witness :
    capBound c5Witness = true
      ∧ downloadChunkStep c5Witness 0 [1, 2] true
          = .stepped ⟨[1, 2, 0, 0], 4, 2, .downloading none, 0⟩ 2
      ∧ (2 : Nat) ≤ 4 := by
  refine ⟨by decide, by decide, ?_⟩
  exact C5_amended_published_bound c5Witness ⟨[1, 2, 0, 0], 4, 2, .downloading none, 0⟩
    0 2 [1, 2] true (by decide) (by decide)

lemma flushBlockLoop_dirty_false (fuel : Nat) (st : EntryState) (e : Nat)
    (hst : st.status = .dirty e false) : flushBlockLoop fuel st = .fuelOut := by
  induction fuel with
  | zero => rfl
  | succ n ih =>
      unfold flushBlockLoop
      rw [hst]
      simpa using ih

lemma uploadPayload_none {ro : RemoteOracle} {st : EntryState}
    (h : ro.uploadOk = false) : uploadPayload ro st = none := by
  unfold uploadPayload
  rw [h]
  split
  · simp
  · split <;> simp

lemma uploadTaskRun_fail_state (ro : RemoteOracle) (rid : Int) (name : String)
    (captured : Nat) (st : EntryState)
    (hro : ro.uploadOk = false ∨ ro.editOk = false) :
    (uploadTaskRun ro rid name captured st).1 = st := by
  unfold uploadTaskRun
  rcases hro with hup | hed
  · rw [uploadPayload_none hup]
    split
    · rfl
    · rfl
  · split
    · rfl
    · cases hpay : uploadPayload ro st with
      | none => rfl
      | some payload => rw [hed]; simp

/-- C6 (code bug): a blocking flush on a `Dirty` entry whose upload fails
(either remote call errors) never returns.  The failed task leaves the status
`Dirty` with the `done` channel closed on `false`, and the blocking loop of
`DiskCache::flush` re-observes that same state forever: for every fuel the
loop is still running, so no error (EIO or otherwise) is ever surfaced. -/
theorem C6_blocking_flush_never_returns (ro : RemoteOracle) (fuel : Nat)
    (rid : Int) (name : String) (st : EntryState) (e : Nat) (v : Bool)
    (hst : st.status = .dirty e v)
    (hro : ro.uploadOk = false ∨ ro.editOk = false) :
    flushEntryModel ro rid name true fuel st
      = .fuelOut { st with status := .dirty (st.clock + 1) false, clock := st.clock + 1 }
          (flushCommit ro rid name st).2 := by
  have hstate : (flushCommit ro rid name st).1
      = { st with status := .dirty (st.clock + 1) false, clock := st.clock + 1 } := by
    unfold flushCommit uploadLaunchStamp
    exact uploadTaskRun_fail_state ro rid name _ _ hro
  have hloop : flushBlockLoop fuel (flushCommit ro rid name st).1 = .fuelOut := by
    rw [hstate]
    exact flushBlockLoop_dirty_false fuel _ (st.clock + 1) rfl
  unfold flushEntryModel
  rw [hst]
  unfold flushResume
  simp only [if_pos]
  rw [hloop, hstate]

def c6Oracle : RemoteOracle := ⟨false, true⟩

theorem C6_blocking_flush_never_returns_witness :
    c1Dirty.status = .dirty 1 true
      ∧ c6Oracle.uploadOk = false
      ∧ flushEntryModel c6Oracle 1 "a.txt" true 3 c1Dirty
          = .fuelOut ⟨helloBytes, 5, 0, .dirty 2 false, 2⟩ (flushCommit c6Oracle 1 "a.txt" c1Dirty).2 := by
  refine ⟨rfl, rfl, ?_⟩
  exact C6_blocking_flush_never_returns c6Oracle 3 1 "a.txt" c1Dirty 1 true rfl (Or.inl rfl)

/-- A truncated-while-downloading entry with a stale published available value
(logical size 3, published value 8, pending cap 3). -/
def c7Stale : EntryState := ⟨[9, 9, 9], 3, 8, .downloading (some 3), 0⟩

/-- C7 counterexample: on `c7Stale`, a read of 20 bytes at offset 0 satisfies
`min(offset+size, logical_size) = 3 ≤ available_prefix = 8`, yet the code
compares the unclamped `offset+size = 20` against the published value and
suspends instead of serving immediately. -/
theorem C7_counterexample :
    min (0 + 20) c7Stale.file_size ≤ c7Stale.available
      ∧ readModel c7Stale 0 20 = .wait := by
  exact ⟨by decide, rfl⟩

/-- C7 amended: for a read on a `Downloading` entry with `offset <
logical_size` and `size > 0`, if the unclamped `offset + size` is at most the
published available value then the read is served immediately, returning the
`min(offset+size, logical_size) − offset` bytes stored at `offset`. -/
theorem C7_amended_read_during_download (st : EntryState) (t : Option Nat)
    (offset size : Nat) (hst : st.status = .downloading t)
    (hoff : offset < st.file_size) (hsz : 0 < size)
    (hav : offset + size ≤ st.available) (hlen : st.file_size ≤ st.file.length) :
    readModel st offset size
        = .out (.ok ((st.file.drop offset).take (min (offset + size) st.file_size - offset)))
      ∧ ((st.file.drop offset).take (min (offset + size) st.file_size - offset)).length
          = min (offset + size) st.file_size - offset := by
  constructor
  · unfold readModel
    rw [if_neg (by omega), hst]
    simp only [if_pos hav]
  · rw [List.length_take, List.length_drop]
    omega

def c7Witness : EntryState := ⟨[1, 2, 3, 4], 4, 3, .downloading none, 0⟩

theorem C7_amended_read_during_download_witness :
    c7Witness.status = .downloading none
      ∧ readModel c7Witness 1 2 = .out (.ok [2, 3])
      ∧ ([2, 3] : List Nat).length = min (1 + 2) c7Witness.file_size - 1 := by
  refine ⟨rfl, ?_, by decide⟩
  have h := C7_amended_read_during_download c7Witness none 1 2 rfl
    (by decide) (by decide) (by decide) (by decide)
  exact h.1

/-- C8: reads on a `Ready` or `Dirty` entry: past-EOF or zero-sized reads
return an empty buffer without error, and otherwise exactly
`min(offset+size, logical_size) − offset` bytes are returned (never more than
`size`): a read straddling EOF returns only the prefix up to
`logical_size`. -/
theorem C8_read_ready_dirty (st : EntryState) (offset size : Nat)
    (hst : st.status = .ready ∨ ∃ e v, st.status = .dirty e v)
    (hlen : st.file_size ≤ st.file.length) :
    (st.file_size ≤ offset ∨ size = 0 → readModel st offset size = .out (.ok []))
      ∧ (offset < st.file_size → 0 < size →
          readModel st offset size
              = .out (.ok ((st.file.drop offset).take (min (offset + size) st.file_size - offset)))
            ∧ ((st.file.drop offset).take (min (offset + size) st.file_size - offset)).length
                = min (offset + size) st.file_size - offset
            ∧ ((st.file.drop offset).take (min (offset + size) st.file_size - offset)).length
                ≤ size) := by
  constructor
  · intro h
    unfold readModel
    rw [if_pos h]
  · intro hoff hsz
    have hserve : readModel st offset size
        = .out (.ok ((st.file.drop offset).take (min (offset + size) st.file_size - offset))) := by
      unfold readModel
      rw [if_neg (by omega)]
      rcases hst with hr | ⟨e, v, hd⟩
      · rw [hr]
      · rw [hd]
    have hlength : ((st.file.drop offset).take (min (offset + size) st.file_size - offset)).length
        = min (offset + size) st.file_size - offset := by
      rw [List.length_take, List.length_drop]
      omega
    exact ⟨hserve, hlength, by rw [hlength]; omega⟩

def c8Witness : EntryState := ⟨[1, 2, 3], 3, 0, .ready, 0⟩

theorem C8_read_ready_dirty_witness :
    readModel c8Witness 5 4 = .out (.ok [])
      ∧ readModel c8Witness 1 7 = .out (.ok [2, 3])
      ∧ ([2, 3] : List Nat).length ≤ 7 := by
  have h := C8_read_ready_dirty c8Witness 1 7 (Or.inl rfl) (by decide)
  have h0 := C8_read_ready_dirty c8Witness 5 4 (Or.inl rfl) (by decide)
  exact ⟨h0.1 (Or.inl (by decide)), (h.2 (by decide) (by decide)).1, by decide⟩

/-- An invalidated entry of logical size 5, as left behind by a duplicate
admission. -/
def c9Inv : EntryState := ⟨[1, 2, 3, 4, 5], 5, 0, .invalidated, 0⟩

/-- C9 counterexample: a zero-sized read on an invalidated old handle takes
the empty-result shortcut of `FileCache::read` and returns `Ok` with an empty
buffer — it does not fail with the `Invalidated` error, so not *every* later
read through the old handle fails. -/
theorem C9_counterexample :
    c9Inv.status = .invalidated
      ∧ readModel c9Inv 0 0 = .out (.ok [])
      ∧ readModel c9Inv 0 0 ≠ .out (.error .invalidated) := by
  exact ⟨rfl, rfl, by decide⟩

/-- C9 amended: after a duplicate admission sets the old entry's status to
`Invalidated`, every later write — at any offset, with any data — fails with
the `Invalidated` error (`FileCache::write` checks the status first and has no
shortcut), and so does every later read that would return data (`size > 0`
and `offset < logical_size`); `Invalidated` maps to `EPERM`, distinct from
the `ENOENT` of `NotFound`.  Only reads taking the empty-result shortcut
(`size = 0` or `offset ≥ logical_size`) return an empty buffer instead. -/
theorem C9_amended_invalidated_old_handle (st : EntryState) (offset size mtime : Nat)
    (data : List Nat) :
    (invalidateOld st).status = .invalidated
      ∧ writeModel (invalidateOld st) offset data mtime = .out (.error .invalidated)
      ∧ (0 < size → offset < st.file_size →
          readModel (invalidateOld st) offset size = .out (.error .invalidated))
      ∧ Error.invalidated.into_c_err = 1
      ∧ Error.notFound.into_c_err = 2
      ∧ Error.invalidated.into_c_err ≠ Error.notFound.into_c_err := by
  refine ⟨rfl, rfl, ?_, rfl, rfl, by decide⟩
  intro hsz hoff
  unfold readModel invalidateOld
  rw [if_neg (by simp; omega)]

/-- An invalidated size-0 entry, the typical duplicate-admission victim. -/
def c9Empty : EntryState := ⟨[], 0, 0, .invalidated, 0⟩

theorem C9_amended_invalidated_old_handle_witness :
    (invalidateOld c8Witness).status = .invalidated
      ∧ writeModel (invalidateOld c8Witness) 7 [1] 9 = .out (.error .invalidated)
      ∧ writeModel c9Empty 0 [1] 9 = .out (.error .invalidated)
      ∧ readModel (invalidateOld c8Witness) 0 2 = .out (.error .invalidated)
      ∧ Error.invalidated.into_c_err ≠ Error.notFound.into_c_err := by
  have h := C9_amended_invalidated_old_handle c8Witness 0 2 9 [1]
  have happend := C9_amended_invalidated_old_handle c8Witness 7 2 9 [1]
  have hempty := C9_amended_invalidated_old_handle ⟨[], 0, 0, .ready, 0⟩ 0 0 9 [1]
  exact ⟨h.1, happend.2.1, hempty.2.1, h.2.2.1 (by decide) (by decide), h.2.2.2.2.2⟩

/-- C10: the empty-result shortcut of `FileCache::read` precedes the status
match: on an `Invalidated` or `DownloadFailed` entry, a read with `size = 0`
or `offset ≥ logical_size` returns `Ok` with an empty buffer, while every
other read on that entry returns the corresponding error. -/
theorem C10_shortcut_before_status (st : EntryState) (offset size : Nat)
    (hst : st.status = .invalidated ∨ st.status = .downloadFailed) :
    (size = 0 ∨ st.file_size ≤ offset → readModel st offset size = .out (.ok []))
      ∧ (0 < size → offset < st.file_size →
          readModel st offset size
            = .out (.error (if st.status = .invalidated then .invalidated else .downloadFailed))) := by
  constructor
  · intro h
    unfold readModel
    rw [if_pos (by omega)]
  · intro hsz hoff
    unfold readModel
    rw [if_neg (by omega)]
    rcases hst with h | h <;> rw [h] <;> simp

theorem C10_shortcut_before_status_witness :
    readModel c9Inv 9 3 = .out (.ok [])
      ∧ readModel c9Inv 0 3 = .out (.error .invalidated) := by
  have h := C10_shortcut_before_status c9Inv 0 3 (Or.inl rfl)
  have h0 := C10_shortcut_before_status c9Inv 9 3 (Or.inl rfl)
  refine ⟨h0.1 (Or.inr (by decide)), ?_⟩
  have := h.2 (by decide) (by decide)
  simpa using this

/-- C2: along any trace of entry transitions, (a) every `Ready → Dirty`
transition records a fresh epoch strictly newer than any epoch recorded
earlier in the trace, and (b) the upload task's finalisation commits
`Dirty → Ready` exactly when the entry's current epoch equals the captured
launch epoch, and leaves the status unchanged when it observes a different
epoch (superseded) or `Invalidated`. -/
theorem C2_epoch_discipline (n : Nat) (f : Nat → EntryState) (L : Nat → Label)
    (hstep : ∀ k, k < n → Step (f k) (L k) (f (k + 1)))
    (hinv : epochOk (f 0) = true) :
    (∀ i j e v e' v', i < j → j < n → (f i).status = .dirty e v →
        (f j).status = .ready → (f (j + 1)).status = .dirty e' v' → e < e')
      ∧ (∀ st c,
          (∀ v, st.status = .dirty c v → (uploadFinishStep st c).status = .ready)
            ∧ (∀ e v, st.status = .dirty e v → e ≠ c → uploadFinishStep st c = st)
            ∧ (st.status = .invalidated → uploadFinishStep st c = st)
            ∧ ((uploadFinishStep st c).status = .ready →
                st.status = .ready ∨ ∃ v, st.status = .dirty c v)) := by
  constructor
  · intro i j e v e' v' hij hjn hi hj hj1
    have htr := trace_clock_epoch n f L hstep hinv
    have hoki := (htr i (Nat.le_of_lt (Nat.lt_trans hij hjn))).1
    have hei : e ≤ (f i).clock := epochOk_bound hoki hi
    have hmono : (f i).clock ≤ (f j).clock :=
      (htr j (Nat.le_of_lt hjn)).2 i (Nat.le_of_lt hij)
    have hstamp : (f j).clock < e' := Step.fresh_stamp (hstep j hjn) hj hj1
    omega
  · intro st c
    refine ⟨?_, ?_, ?_, ?_⟩
    · intro v hv
      unfold uploadFinishStep
      rw [hv]
      simp
    · intro e v hv hne
      unfold uploadFinishStep
      rw [hv]
      simp [hne]
    · intro hv
      unfold uploadFinishStep
      rw [hv]
    · intro hready
      unfold uploadFinishStep at hready
      cases hv : st.status with
      | downloading t => rw [hv] at hready; simp [hv] at hready
      | downloadFailed => rw [hv] at hready; simp [hv] at hready
      | ready => exact Or.inl rfl
      | dirty e v =>
          by_cases hec : e = c
          · exact Or.inr ⟨v, by rw [hec]⟩
          · simp [hec, hv] at hready
      | invalidated => rw [hv] at hready; simp [hv] at hready

/-- A two-step witness trace: a superseded-looking entry commits via a
matching upload finish, then a write re-dirties it with a fresh epoch. -/
def traceA : EntryState := ⟨[104], 1, 0, .dirty 1 false, 1⟩

def traceB : EntryState := ⟨[104], 1, 0, .ready, 1⟩

def traceF : Nat → EntryState := fun k =>
  if k = 0 then traceA else if k = 1 then traceB else writeUpdate traceB 0 [5]

def traceL : Nat → Label := fun k =>
  if k = 0 then .uploadFinish 1 else .writeOp 0 [5]

lemma traceSteps : ∀ k, k < 2 → Step (traceF k) (traceL k) (traceF (k + 1)) := by
  intro k hk
  have hcase : k = 0 ∨ k = 1 := by omega
  rcases hcase with rfl | rfl
  · show Step traceA (.uploadFinish 1) traceB
    have hB : traceB = uploadFinishStep traceA 1 := by decide
    rw [hB]
    exact Step.uploadFinish traceA 1 (fun t h => FileCacheStatus.noConfusion h)
  · show Step traceB (.writeOp 0 [5]) (writeUpdate traceB 0 [5])
    exact Step.writeOp traceB 0 [5] (Or.inl rfl)

theorem C2_epoch_discipline_witness :
    (traceF 0).status = .dirty 1 false
      ∧ (traceF 1).status = .ready
      ∧ (traceF 2).status = .dirty 2 true
      ∧ (1 : Nat) < 2 := by
  refine ⟨rfl, rfl, rfl, ?_⟩
  exact (C2_epoch_discipline 2 traceF traceL traceSteps (by decide)).1
    0 1 1 false 2 true (by decide) (by decide) rfl rfl rfl

end TelegramFuse
